import Mathlib

/-!
Verification of the agent-plugins core (src/agent_plugins/__init__.py):
shallow embedding of the metadata reconciler
(`setup_marketplace_metadata_symlinks`, `backup_file_with_date`,
`load_known_marketplaces`), the link resolver (`create_link`,
`create_junction`) and the structure builder (`build_opencode_structure`),
together with theorems settling the specification claims about them.

Modelling conventions:
* File contents are abstracted by what the code observes of them: raw bytes
  are kept opaque except for their JSON parse result (`Content`), since the
  code only ever copies bytes verbatim (`shutil.copy2`) or parses them
  (`json.load`).
* Directory listings are association lists in enumeration order
  (`os`/`pathlib` iteration order), which the code treats as opaque but
  fixed.
* OS-level symlink creation is modelled by an explicit success flag where
  the code catches `OSError` from `Path.symlink_to`; plain writes/copies are
  modelled as succeeding (an unwritable filesystem propagates as a hard
  error outside every path the claims speak about, spec section 7).
-/

namespace AgentPlugins

/-- A JSON value as produced by Python's `json.load`: null, booleans,
numbers (restricted to integers, which is all the registry files use),
strings, arrays and objects.  Objects keep their fields as a list in
insertion order, mirroring Python dict ordering. -/
inductive JVal where
  | null
  | bool (b : Bool)
  | num (n : Int)
  | str (s : String)
  | arr (elems : List JVal)
  | obj (fields : List (String × JVal))

/-- The raw content of a file, abstracted by its JSON parse result: either
bytes that fail `json.load` (distinguished by an identifier so that distinct
malformed files stay distinct under copying), or bytes parsing to a JSON
value. -/
inductive Content where
  | unparsable (id : Nat)
  | parsed (v : JVal)

/-- What `json.load` observes of a file's content: `none` models a raised
`json.JSONDecodeError`. -/
def parseContent : Content → Option JVal
  | .unparsable _ => none
  | .parsed v => some v

/-- First-match association-list lookup, the observable content of a Python
dict (and of a directory listing keyed by entry name). -/
def lookupStr {α : Type} (k : String) : List (String × α) → Option α
  | [] => none
  | kv :: rest => if kv.1 = k then some kv.2 else lookupStr k rest

/-- Python's `{**a, **b}` on two dicts: every key of `a` in order (with
`b`'s value when `b` also has the key), then the keys of `b` not in `a`, in
order.  This is the merge expression at line 784 of the source
(`merged = {**agent_data, **claude_data}`). -/
def pyUpdate (a b : List (String × JVal)) : List (String × JVal) :=
  (a.map (fun kv => match lookupStr kv.1 b with
    | some w => (kv.1, w)
    | none => kv))
  ++ b.filter (fun kv => (lookupStr kv.1 a).isNone)

theorem lookupStr_append {α : Type} (k : String) (xs ys : List (String × α)) :
    lookupStr k (xs ++ ys) = (lookupStr k xs).orElse (fun _ => lookupStr k ys) := by
  induction xs with
  | nil => simp [lookupStr]
  | cons kv rest ih =>
      by_cases h : kv.1 = k <;> simp [lookupStr, h, ih]

theorem lookupStr_map_update (k : String) (a b : List (String × JVal)) :
    lookupStr k (a.map (fun kv => match lookupStr kv.1 b with
      | some w => (kv.1, w)
      | none => kv)) =
    (lookupStr k a).map (fun v => match lookupStr k b with
      | some w => w
      | none => v) := by
  induction a with
  | nil => simp [lookupStr]
  | cons kv rest ih =>
      by_cases h : kv.1 = k
      · subst h
        cases hb : lookupStr kv.1 b <;> simp [lookupStr, hb]
      · cases hb : lookupStr kv.1 b <;> simp [lookupStr, h, hb, ih]

theorem lookupStr_filter_none (k : String) (a b : List (String × JVal)) :
    lookupStr k (b.filter (fun kv => (lookupStr kv.1 a).isNone)) =
    (if (lookupStr k a).isNone then lookupStr k b else none) := by
  induction b with
  | nil => simp [lookupStr]
  | cons kv rest ih =>
      by_cases h : kv.1 = k
      · subst h
        cases ha : lookupStr kv.1 a <;> simp [lookupStr, List.filter, ha, ih]
      · cases ha : lookupStr kv.1 a <;>
          cases hka : lookupStr kv.1 a <;>
            simp_all [lookupStr, List.filter, h]

/-- The key property of the Python merge `{**a, **b}`: lookup in the merged
dict returns `b`'s value when `b` has the key, otherwise `a`'s value. -/
theorem lookupStr_pyUpdate (k : String) (a b : List (String × JVal)) :
    lookupStr k (pyUpdate a b) =
    ((lookupStr k b).orElse (fun _ => lookupStr k a)) := by
  unfold pyUpdate
  rw [lookupStr_append, lookupStr_map_update, lookupStr_filter_none]
  cases ha : lookupStr k a <;> cases hb : lookupStr k b <;> simp [ha, hb, Option.orElse]

/-! ## Metadata reconciler (`setup_marketplace_metadata_symlinks`) -/

/-- The state of the external tool's copy of one registry file
(`claude_file` in the source): absent, a symlink resolving to the canonical
store's file (`claude_file.resolve() == agent_file.resolve()`), a symlink
resolving elsewhere, or a real file with some content. -/
inductive ExtFile where
  | absent
  | symlinkToCanonical
  | symlinkElsewhere (dest : String)
  | realFile (c : Content)

/-- The reconciler-visible state for one registry filename: the external
tool's file, the canonical store's file (`agent_file`; `none` when absent),
and the timestamp-suffixed backup files next to the external file, as an
association list from backup filename to content. -/
structure MetaState where
  extFile : ExtFile
  canonical : Option Content
  backups : List (String × Content)

/-- The action recorded in the `results` dict of
`setup_marketplace_metadata_symlinks` for one filename (`noAction` when the
loop records nothing for it). -/
inductive RAction where
  | noAction
  | createdEmpty
  | alreadyLinked
  | symlinkExistsDifferentTarget
  | symlinked
  | copiedAndSymlinked
  | mergedAndSymlinked
  | symlinkFailed
deriving DecidableEq, Repr

/-- An uncaught Python exception escaping the reconciler. -/
inductive PyError where
  | fileNotFound
  | typeError
deriving DecidableEq, Repr

/-- The backup filename produced by `file_path.with_suffix(f".json.bak.{ts}")`
for a registry file `<stem>.json`: `with_suffix` replaces the final `.json`
suffix, yielding `<stem>.json.bak.<ts>`. -/
def backupName (stem ts : String) : String := stem ++ ".json.bak." ++ ts

/-- `backup_file_with_date` (source lines 707-719): returns `None` when the
file does not exist or is a symlink; otherwise copies it (`shutil.copy2`) to
the timestamp-suffixed backup name and returns that name with the copied
content. -/
def backup_file_with_date (stem ts : String) : ExtFile → Option (String × Content)
  | .realFile c => some (backupName stem ts, c)
  | _ => none

/-- Writing a file by name into a directory listing: `shutil.copy2`
overwrites an existing file of that name in place, otherwise the new file is
a fresh directory entry. -/
def setBackup (name : String) (c : Content) (backups : List (String × Content)) :
    List (String × Content) :=
  if (lookupStr name backups).isSome then
    backups.map (fun kv => if kv.1 = name then (name, c) else kv)
  else backups ++ [(name, c)]

/-- Which of the Step-1 branches ran before promotion, determining the
suffix of the recorded action string. -/
inductive MergeTag where
  | noMerge
  | copiedTag
  | mergedTag

/-- Steps 2-3 of the loop body of `setup_marketplace_metadata_symlinks`
(source lines 792-809) for an external file that is a real file with content
`c`: back it up with `backup_file_with_date`, unlink it, and attempt
`claude_file.symlink_to(agent_file)`.  `symlinkOk` models whether the OS
symlink call succeeds; on `OSError` the action is recorded as
`symlink_failed` and the external file stays deleted.  `canonical'` is the
canonical content after Step 1. -/
def promoteExternal (symlinkOk : Bool) (stem ts : String) (c : Content)
    (canonical' : Option Content) (tag : MergeTag)
    (backups : List (String × Content)) : RAction × MetaState :=
  let backups' := match backup_file_with_date stem ts (.realFile c) with
    | some nc => setBackup nc.1 nc.2 backups
    | none => backups
  if symlinkOk then
    (match tag with
      | .copiedTag => .copiedAndSymlinked
      | .mergedTag => .mergedAndSymlinked
      | .noMerge => .symlinked,
     { extFile := .symlinkToCanonical, canonical := canonical', backups := backups' })
  else
    (.symlinkFailed, { extFile := .absent, canonical := canonical', backups := backups' })

/-- One iteration of the `for filename in metadata_files` loop of
`setup_marketplace_metadata_symlinks` (source lines 745-809), for the
registry file `<stem>.json` in state `st`:
* external absent: create an empty `{}` canonical file when the canonical
  one is absent too, else record nothing;
* external a symlink to the canonical file: record `already_linked`;
* external a symlink elsewhere: without `force` record
  `symlink_exists_different_target`; with `force` the code unlinks the
  symlink and then falls into the real-file block, where the subsequent
  `shutil.copy2`/`open` of the now-deleted external path raises an uncaught
  `FileNotFoundError`;
* external a real file: Step 1 copies it to the canonical store when the
  canonical file is absent, merges `{**agent_data, **claude_data}` into the
  canonical store when `force` and both parse as JSON (a non-object on
  either side raises an uncaught `TypeError`; a parse/read failure falls
  back to copying), and otherwise leaves the canonical file alone; then
  Steps 2-3 promote (backup, unlink, symlink). -/
def reconcile_metadata_file (force symlinkOk : Bool) (stem ts : String)
    (st : MetaState) : Except PyError (RAction × MetaState) :=
  match st.extFile with
  | .absent =>
      match st.canonical with
      | none => .ok (.createdEmpty, { st with canonical := some (.parsed (.obj [])) })
      | some _ => .ok (.noAction, st)
  | .symlinkToCanonical => .ok (.alreadyLinked, st)
  | .symlinkElsewhere _ =>
      if force then
        .error .fileNotFound
      else .ok (.symlinkExistsDifferentTarget, st)
  | .realFile c =>
      match st.canonical with
      | none => .ok (promoteExternal symlinkOk stem ts c (some c) .copiedTag st.backups)
      | some a =>
          if force then
            match parseContent a with
            | none => .ok (promoteExternal symlinkOk stem ts c (some c) .copiedTag st.backups)
            | some av =>
                match parseContent c with
                | none => .ok (promoteExternal symlinkOk stem ts c (some c) .copiedTag st.backups)
                | some cv =>
                    match av, cv with
                    | .obj ao, .obj co =>
                        .ok (promoteExternal symlinkOk stem ts c
                          (some (.parsed (.obj (pyUpdate ao co)))) .mergedTag st.backups)
                    | _, _ => .error .typeError
          else .ok (promoteExternal symlinkOk stem ts c (some a) .noMerge st.backups)

/-- The fixed set of registry filenames handled by the reconciler, by stem. -/
def metadata_files : List String :=
  ["known_marketplaces", "installed_plugins", "installed_plugins_v2"]

/-- `setup_marketplace_metadata_symlinks`: the loop over the registry files,
given each file's stem and state; an uncaught exception aborts the loop. -/
def setup_marketplace_metadata_symlinks (force symlinkOk : Bool) (ts : String)
    (states : List (String × MetaState)) :
    Except PyError (List (RAction × MetaState)) :=
  states.mapM (fun f => reconcile_metadata_file force symlinkOk f.1 ts f.2)

theorem overwrite_keys (name : String) (c : Content)
    (backups : List (String × Content)) :
    (backups.map (fun kv => if kv.1 = name then (name, c) else kv)).map Prod.fst
      = backups.map Prod.fst := by
  induction backups with
  | nil => rfl
  | cons kv rest ih =>
      by_cases hk : kv.1 = name <;> simp [hk, ih]

theorem setBackup_key_mem (name : String) (c : Content)
    (backups : List (String × Content)) :
    ∀ b ∈ backups, b.1 ∈ (setBackup name c backups).map Prod.fst := by
  intro b hb
  cases hl : lookupStr name backups with
  | none =>
      simp only [setBackup, hl, Option.isSome_none, Bool.false_eq_true, if_false,
        List.map_append]
      exact List.mem_append_left _ (List.mem_map_of_mem Prod.fst hb)
  | some v =>
      simp only [setBackup, hl, Option.isSome_some, if_true, overwrite_keys]
      exact List.mem_map_of_mem Prod.fst hb

theorem setBackup_fresh (name : String) (c : Content)
    (backups : List (String × Content)) (h : lookupStr name backups = none) :
    setBackup name c backups = backups ++ [(name, c)] := by
  simp [setBackup, h]

theorem promoteExternal_backups (symlinkOk : Bool) (stem ts : String) (c : Content)
    (canonical' : Option Content) (tag : MergeTag)
    (backups : List (String × Content)) :
    (promoteExternal symlinkOk stem ts c canonical' tag backups).2.backups =
      setBackup (backupName stem ts) c backups := by
  cases symlinkOk <;> cases tag <;> rfl

/-- C1 counterexample: with `force=false` and both the external and the
canonical file present as independent real files (external `{"a": 1}`,
canonical `{"b": 2}`), `setup_marketplace_metadata_symlinks` does NOT report
a conflict and does NOT leave the external file alone: it records action
`symlinked`, backs the external file up, deletes it, and replaces it with a
symlink to the canonical file, whose content stays `{"b": 2}` (the external
content `{"a": 1}` survives only in the backup).  This contradicts the
claimed "report conflict, no mutation". -/
theorem c1_claim_false :
    reconcile_metadata_file false true "known_marketplaces" "20250101_000000"
      { extFile := .realFile (.parsed (.obj [("a", .num 1)])),
        canonical := some (.parsed (.obj [("b", .num 2)])),
        backups := [] } =
    .ok (.symlinked,
      { extFile := .symlinkToCanonical,
        canonical := some (.parsed (.obj [("b", .num 2)])),
        backups := [(backupName "known_marketplaces" "20250101_000000",
          .parsed (.obj [("a", .num 1)]))] }) := rfl

/-- C1 (amended): for a registry file where both the external tool's file
and the canonical store's file exist as independent real files, the
reconciler with `force=false` performs no merge — the canonical file's
content is left unchanged — but it is not a conflict-reporting no-op: it
records action `symlinked`, creates a timestamp-suffixed backup of the
external file, deletes the external file and replaces it with a symlink to
the canonical file. -/
theorem c1_force_false_promotes_without_merge (stem ts : String) (c a : Content)
    (backups : List (String × Content)) :
    reconcile_metadata_file false true stem ts
      { extFile := .realFile c, canonical := some a, backups := backups } =
    .ok (.symlinked,
      { extFile := .symlinkToCanonical, canonical := some a,
        backups := setBackup (backupName stem ts) c backups }) := rfl

/-- C2: for a registry file where both sides exist as real JSON objects,
the reconciler with `force=true` writes into the canonical store the
shallow key-union `{**agent_data, **claude_data}` in which the external
tool's value wins on every top-level key collision, and then replaces the
external file with a symlink to the canonical file (recording
`merged_and_symlinked`).  In particular external `{"a":1}` with canonical
`{"b":2}` yields a canonical object mapping `"a"` to `1` and `"b"` to `2`,
and external `{"a":1}` with canonical `{"a":2}` yields `"a" = 1`. -/
theorem c2_force_merge_external_wins (stem ts : String)
    (ao co : List (String × JVal)) (backups : List (String × Content)) :
    (reconcile_metadata_file true true stem ts
      { extFile := .realFile (.parsed (.obj co)),
        canonical := some (.parsed (.obj ao)),
        backups := backups } =
    .ok (.mergedAndSymlinked,
      { extFile := .symlinkToCanonical,
        canonical := some (.parsed (.obj (pyUpdate ao co))),
        backups := setBackup (backupName stem ts) (.parsed (.obj co)) backups })) ∧
    (∀ k, lookupStr k (pyUpdate ao co) =
      (lookupStr k co).orElse (fun _ => lookupStr k ao)) ∧
    lookupStr "a" (pyUpdate [("b", .num 2)] [("a", .num 1)]) = some (.num 1) ∧
    lookupStr "b" (pyUpdate [("b", .num 2)] [("a", .num 1)]) = some (.num 2) ∧
    lookupStr "a" (pyUpdate [("a", .num 2)] [("a", .num 1)]) = some (.num 1) := by
  refine ⟨rfl, fun k => lookupStr_pyUpdate k ao co, ?_, ?_, ?_⟩ <;> rfl

/-- C7: whenever a call of the reconciler on one registry file completes
without an exception, every backup file that existed before still exists
after (the reconciler never deletes a backup); and every promotion of an
external registry file that is a real file creates exactly one new
timestamp-suffixed backup of it — when the timestamped name is fresh, the
backup listing afterwards is exactly the old listing plus that one new
file. -/
theorem ok_pair_eq {α β ε : Type} {x : α × β} {a : α} {b : β}
    (h : (Except.ok x : Except ε (α × β)) = Except.ok (a, b)) :
    x.1 = a ∧ x.2 = b := by
  injection h with h'
  exact ⟨congrArg Prod.fst h', congrArg Prod.snd h'⟩

theorem c7_promotion_backup_invariant (force symlinkOk : Bool) (stem ts : String)
    (st : MetaState) (act : RAction) (st' : MetaState)
    (h : reconcile_metadata_file force symlinkOk stem ts st = .ok (act, st')) :
    (∀ b ∈ st.backups, b.1 ∈ st'.backups.map Prod.fst) ∧
    (∀ c, st.extFile = .realFile c →
      lookupStr (backupName stem ts) st.backups = none →
      st'.backups = st.backups ++ [(backupName stem ts, c)]) := by
  obtain ⟨ext, canonical, backups⟩ := st
  have hreal : ∀ c, ext = ExtFile.realFile c →
      st'.backups = setBackup (backupName stem ts) c backups := by
    intro c hc
    subst hc
    cases canonical with
    | none =>
        have h2 := ok_pair_eq h
        rw [← h2.2]
        exact promoteExternal_backups _ _ _ _ _ _ _
    | some a =>
        cases force with
        | false =>
            have h2 := ok_pair_eq h
            rw [← h2.2]
            exact promoteExternal_backups _ _ _ _ _ _ _
        | true =>
            cases hpa : parseContent a with
            | none =>
                dsimp only [reconcile_metadata_file] at h
                rw [if_pos rfl, hpa] at h
                have h2 := ok_pair_eq h
                rw [← h2.2]
                exact promoteExternal_backups _ _ _ _ _ _ _
            | some av =>
                dsimp only [reconcile_metadata_file] at h
                rw [if_pos rfl, hpa] at h
                cases hpc : parseContent c with
                | none =>
                    rw [hpc] at h
                    have h2 := ok_pair_eq h
                    rw [← h2.2]
                    exact promoteExternal_backups _ _ _ _ _ _ _
                | some cv =>
                    rw [hpc] at h
                    cases av with
                    | obj ao =>
                        cases cv with
                        | obj co =>
                            have h2 := ok_pair_eq h
                            rw [← h2.2]
                            exact promoteExternal_backups _ _ _ _ _ _ _
                        | null => exact Except.noConfusion h
                        | bool b => exact Except.noConfusion h
                        | num n => exact Except.noConfusion h
                        | str s => exact Except.noConfusion h
                        | arr xs => exact Except.noConfusion h
                    | null => exact Except.noConfusion h
                    | bool b => exact Except.noConfusion h
                    | num n => exact Except.noConfusion h
                    | str s => exact Except.noConfusion h
                    | arr xs => exact Except.noConfusion h
  have hother : st'.backups = backups ∨ ∃ c, ext = ExtFile.realFile c := by
    cases ext with
    | realFile c => exact Or.inr ⟨c, rfl⟩
    | absent =>
        cases canonical with
        | none =>
            have h2 := ok_pair_eq h
            exact Or.inl (by rw [← h2.2])
        | some a =>
            have h2 := ok_pair_eq h
            exact Or.inl (by rw [← h2.2])
    | symlinkToCanonical =>
        have h2 := ok_pair_eq h
        exact Or.inl (by rw [← h2.2])
    | symlinkElsewhere d =>
        cases force with
        | true => exact Except.noConfusion h
        | false =>
            have h2 := ok_pair_eq h
            exact Or.inl (by rw [← h2.2])
  constructor
  · intro b hb
    rcases hother with heq | ⟨c, hc⟩
    · rw [heq]
      exact List.mem_map_of_mem Prod.fst hb
    · rw [hreal c hc]
      exact setBackup_key_mem _ _ _ b hb
  · intro c hc hfresh
    rw [hreal c hc, setBackup_fresh _ _ _ hfresh]

/-- A concrete pre-promotion state for the C7 witness: the external
`installed_plugins.json` is a real file `{}`, the canonical side is absent,
and one old backup already exists. -/
def c7state : MetaState :=
  { extFile := .realFile (.parsed (.obj [])),
    canonical := none,
    backups := [("ip.json.bak.t1", .parsed .null)] }

/-- The state after reconciling `c7state`: external promoted to a symlink,
canonical holds the copied content, and exactly one new backup was added. -/
def c7state2 : MetaState :=
  { extFile := .symlinkToCanonical,
    canonical := some (.parsed (.obj [])),
    backups := [("ip.json.bak.t1", .parsed .null), (backupName "ip" "t2", .parsed (.obj []))] }

/-- Witness for C7 at a concrete promotion: the old backup is still listed
afterwards and the backup listing grew by exactly the one new timestamped
file. -/
theorem c7_witness :
    (∀ b ∈ c7state.backups, b.1 ∈ c7state2.backups.map Prod.fst) ∧
    (∀ c, c7state.extFile = .realFile c →
      lookupStr (backupName "ip" "t2") c7state.backups = none →
      c7state2.backups = c7state.backups ++ [(backupName "ip" "t2", c)]) :=
  c7_promotion_backup_invariant false true "ip" "t2" c7state .copiedAndSymlinked
    c7state2 rfl

/-! ## Link resolver (`create_link`, `create_junction`) -/

/-- A filesystem path, as its list of components. -/
abbrev FsPath := List String

/-- A filesystem tree, as read by `shutil.copytree`/`shutil.copy2`: a
regular file with content, or a directory with its listing in enumeration
order. -/
inductive FsTree where
  | file (c : Content)
  | dir (entries : List (String × FsTree))

/-- `Path.is_dir()` on a source tree. -/
def FsTree.isDir : FsTree → Bool
  | .dir _ => true
  | .file _ => false

/-- The state of the target path handed to `create_link`: absent, a real
file, a real directory, a symlink, or a Windows junction. -/
inductive TargetState where
  | absent
  | realFile (c : Content)
  | realDir (entries : List (String × FsTree))
  | symlinkTo (dest : FsPath)
  | junctionTo (dest : FsPath)

/-- The guard at source line 1174:
`target.exists() or target.is_symlink() or is_junction(target)` — true for
every occupied target (a dangling symlink is caught by `is_symlink`). -/
def targetOccupied : TargetState → Bool
  | .absent => false
  | _ => true

/-- The OS facts one `create_link` call runs against: the platform
(`sys.platform == "win32"`), whether `Path.symlink_to` succeeds (raises
`OSError` otherwise: privilege/filesystem dependent), and whether the
`mklink /J` subprocess succeeds. -/
structure LinkEnv where
  isWin32 : Bool
  symlinkOk : Bool
  junctionOk : Bool

/-- How a `create_link` call concluded, as observable from its boolean
result plus its console output: `linked` (plain `return True`), `junction`
("using junction point"), `copied` ("copied - symlink/junction
unavailable"), or `skippedConflict` ("already exists, skipping" with
`return False`). -/
inductive LinkMode where
  | linked
  | junction
  | copied
  | skippedConflict
deriving DecidableEq, Repr

/-- The outcome of a `create_link` call: the returned boolean, the
conclusion mode, and the resulting state of the target path. -/
structure LinkResult where
  ok : Bool
  mode : LinkMode
  target : TargetState

/-- `create_junction` (source lines 1137-1154): returns `False` off
Windows, otherwise reports whether the `cmd /c mklink /J` subprocess
succeeded. -/
def create_junction (env : LinkEnv) : Bool :=
  if env.isWin32 then env.junctionOk else false

/-- Strategy 3 of `create_link` (source lines 1206-1213): copy the source
recursively when it is a directory (`shutil.copytree`), else copy the single
file (`shutil.copy2`); always returns `True`. -/
def copy_fallback (src : FsTree) : LinkResult :=
  match src with
  | .dir es => { ok := true, mode := .copied, target := .realDir es }
  | .file c => { ok := true, mode := .copied, target := .realFile c }

/-- The strategy ladder of `create_link` once the target slot is free
(source lines 1189-1213): native symlink first, then a junction on Windows
for directory sources, then the copy fallback. -/
def create_link_strategies (env : LinkEnv) (src : FsTree) (srcPath : FsPath) :
    LinkResult :=
  if env.symlinkOk then
    { ok := true, mode := .linked, target := .symlinkTo srcPath }
  else if env.isWin32 && src.isDir then
    if create_junction env then
      { ok := true, mode := .junction, target := .junctionTo srcPath }
    else copy_fallback src
  else copy_fallback src

/-- `create_link` (source lines 1157-1213): if the target is occupied and
`force` is false, warn and return `False` without touching anything; if
`force`, remove the existing target (unlink a symlink, `rmdir` a junction,
`rmtree` a real directory, unlink a file — in every case the slot becomes
free) and then, as from a free slot, run the strategy ladder. -/
def create_link (env : LinkEnv) (src : FsTree) (srcPath : FsPath)
    (tgt : TargetState) (force : Bool) : LinkResult :=
  if targetOccupied tgt then
    if force then create_link_strategies env src srcPath
    else { ok := false, mode := .skippedConflict, target := tgt }
  else create_link_strategies env src srcPath

/-- C3 counterexample: with source present and target absent, a first
`create_link` succeeds and leaves the target a symlink resolving to the
source; but the second call on the same pair does NOT report an
already-linked status — it takes the generic existing-target branch,
returning `False` with the conflict warning, exactly the same outcome as
for a target symlinked to a completely different path. -/
theorem c3_claim_false :
    create_link ⟨false, true, false⟩ (.file (.parsed .null)) ["src"] .absent false
      = ⟨true, .linked, .symlinkTo ["src"]⟩ ∧
    create_link ⟨false, true, false⟩ (.file (.parsed .null)) ["src"]
        (.symlinkTo ["src"]) false
      = ⟨false, .skippedConflict, .symlinkTo ["src"]⟩ ∧
    create_link ⟨false, true, false⟩ (.file (.parsed .null)) ["src"]
        (.symlinkTo ["other"]) false
      = ⟨false, .skippedConflict, .symlinkTo ["other"]⟩ :=
  ⟨rfl, rfl, rfl⟩

/-- C3 (amended): `create_link` performs no already-linked detection.  When
the target is already a link resolving to the source (in particular after a
successful first call with source present and target absent), a second call
on the same pair mutates nothing further, but it reports the generic
existing-target conflict (warns and returns `False`) rather than an
already-linked status. -/
theorem c3_second_call_conflict_skip (env : LinkEnv) (src : FsTree) (p : FsPath)
    (h : env.symlinkOk = true) :
    create_link env src p .absent false = ⟨true, .linked, .symlinkTo p⟩ ∧
    create_link env src p (.symlinkTo p) false
      = ⟨false, .skippedConflict, .symlinkTo p⟩ := by
  constructor
  · simp [create_link, targetOccupied, create_link_strategies, h]
  · rfl

/-- Witness for C3 (amended) on a Unix-like environment where symlinks
succeed. -/
theorem c3_witness :
    create_link ⟨false, true, false⟩ (.dir []) ["s"] .absent false
      = ⟨true, .linked, .symlinkTo ["s"]⟩ ∧
    create_link ⟨false, true, false⟩ (.dir []) ["s"] (.symlinkTo ["s"]) false
      = ⟨false, .skippedConflict, .symlinkTo ["s"]⟩ :=
  c3_second_call_conflict_skip ⟨false, true, false⟩ (.dir []) ["s"] rfl

/-- C6: with the target slot free (absent, or force-cleared), `create_link`
tries the strategies in a fixed order: a native symlink first (mode
`linked` on success); if that fails, a junction, but only on Windows and
only for a directory source (mode `junction` on success); and otherwise the
copy fallback, which copies the source tree recursively for a directory or
the single file otherwise, reports mode `copied`, and succeeds. -/
theorem c6_link_strategy_ladder (env : LinkEnv) (src : FsTree) (p : FsPath)
    (tgt : TargetState) (force : Bool)
    (h : targetOccupied tgt = false ∨ force = true) :
    (env.symlinkOk = true →
      create_link env src p tgt force = ⟨true, .linked, .symlinkTo p⟩) ∧
    (env.symlinkOk = false → env.isWin32 = true → src.isDir = true →
      env.junctionOk = true →
      create_link env src p tgt force = ⟨true, .junction, .junctionTo p⟩) ∧
    (env.symlinkOk = false → (env.isWin32 && src.isDir && env.junctionOk) = false →
      create_link env src p tgt force = copy_fallback src ∧
      (copy_fallback src).ok = true ∧ (copy_fallback src).mode = .copied ∧
      (copy_fallback src).target = (match src with
        | .dir es => TargetState.realDir es
        | .file c => TargetState.realFile c)) := by
  have hs : create_link env src p tgt force = create_link_strategies env src p := by
    rcases h with h | h
    · simp [create_link, h]
    · cases ho : targetOccupied tgt <;> simp [create_link, h, ho]
  refine ⟨?_, ?_, ?_⟩
  · intro h1
    rw [hs]
    simp [create_link_strategies, h1]
  · intro h1 h2 h3 h4
    rw [hs]
    simp [create_link_strategies, create_junction, h1, h2, h3, h4]
  · intro h1 h2
    rw [hs]
    refine ⟨?_, ?_⟩
    · cases hw : env.isWin32 <;> cases hd : src.isDir <;>
        cases hj : env.junctionOk <;>
          simp_all [create_link_strategies, create_junction]
    · cases src <;> exact ⟨rfl, rfl, rfl⟩

/-- Witness for C6: on Unix with symlinks unavailable, a file source falls
through to the copy fallback. -/
theorem c6_witness :
    create_link ⟨false, false, false⟩ (.file (.parsed .null)) ["s"] .absent false
      = copy_fallback (.file (.parsed .null)) ∧
    (copy_fallback (.file (.parsed .null))).ok = true ∧
    (copy_fallback (.file (.parsed .null))).mode = .copied ∧
    (copy_fallback (.file (.parsed .null))).target
      = TargetState.realFile (.parsed .null) :=
  (c6_link_strategy_ladder ⟨false, false, false⟩ (.file (.parsed .null)) ["s"]
    .absent false (Or.inl rfl)).2.2 rfl rfl

/-- C9: when the target path is occupied (real file, real directory,
symlink or junction) and `force` is false, `create_link` skips the pair:
it returns `False` with the conflict warning and the target is left exactly
as it was; the function is total, so no exception escapes for this expected
contention. -/
theorem c9_existing_target_skip (env : LinkEnv) (src : FsTree) (p : FsPath)
    (tgt : TargetState) (h : targetOccupied tgt = true) :
    create_link env src p tgt false = ⟨false, .skippedConflict, tgt⟩ := by
  simp [create_link, h]

/-- Witness for C9 with a real directory occupying the target. -/
theorem c9_witness :
    create_link ⟨false, true, true⟩ (.file (.parsed .null)) ["s"]
        (.realDir [("x", .file (.parsed .null))]) false
      = ⟨false, .skippedConflict, .realDir [("x", .file (.parsed .null))]⟩ :=
  c9_existing_target_skip ⟨false, true, true⟩ (.file (.parsed .null)) ["s"]
    (.realDir [("x", .file (.parsed .null))]) rfl

/-! ## Structure builder (`build_opencode_structure`)

`build_opencode_structure` mutates `~/.agent/opencode/<kind>`; the model
keeps that directory's listing explicitly and treats the user content
directories and the plugin cache as read-only input trees.  `Path.symlink_to`
is modelled as succeeding (on failure the code merely skips the item,
`except OSError: pass`). -/

/-- One entry of a merged-namespace kind directory. -/
inductive OcNode where
  | symlinkTo (dest : FsPath)
  | realFile (c : Content)
  | realDir (entries : List (String × FsTree))

/-- `Path.is_symlink()` on a merged-namespace entry. -/
def OcNode.isSymlink : OcNode → Bool
  | .symlinkTo _ => true
  | _ => false

/-- A merged-namespace kind directory (`~/.agent/opencode/<subdir>`):
`root` lists its entries other than `"marketplace"`, and `marketplace`
holds the listing of the `"marketplace"` subfolder when present.  The
builder only ever creates `"marketplace"` as a real directory, which is
the shape this model covers. -/
structure KindDir where
  root : List (String × OcNode)
  marketplace : Option (List (String × OcNode))

/-- The three component kinds iterated by `build_opencode_structure`
(source line 901: commands, agents, skills). -/
inductive CompKind where
  | commands
  | agents
  | skills
deriving DecidableEq, Repr

/-- The user content directory name under `~/.agent` for a kind
(`user_dir` in the components table). -/
def userDirName : CompKind → String
  | .commands => "commands"
  | .agents => "agents"
  | .skills => "skills"

/-- The kind subdirectory name looked up inside each cached plugin version
(`cache_subdir` in the components table). -/
def cacheSubdirName : CompKind → String
  | .commands => "commands"
  | .agents => "agents"
  | .skills => "skills"

/-- `AGENT_PLUGINS_HOME` (`~/.agent`). -/
def agentPluginsHome : FsPath := [".agent"]

/-- `AGENT_PLUGINS_HOME / user_dir`. -/
def userSourcePath (k : CompKind) : FsPath := agentPluginsHome ++ [userDirName k]

/-- `AGENT_PLUGINS_HOME / "plugins" / "cache"`. -/
def cacheDirPath : FsPath := agentPluginsHome ++ ["plugins", "cache"]

/-- The cleaning loop (source lines 913-916): remove every symlink entry
of the kind directory whose name is not `"marketplace"` (the model's `root`
already excludes the `"marketplace"` entry). -/
def cleanRoot (root : List (String × OcNode)) : List (String × OcNode) :=
  root.filter (fun e => !e.2.isSymlink)

/-- Unlinking/removing the directory entry of a given name. -/
def removeName (n : String) (l : List (String × OcNode)) : List (String × OcNode) :=
  l.filter (fun e => !(e.1 == n))

/-- Python's `name.startswith(".")`: the name's first character is a
dot. -/
def startsWithDot (s : String) : Bool :=
  match s.data with
  | [] => false
  | c :: _ => c == '.'

/-- The name ends in the three characters `".md"` — the meaning of the
`fnmatch` pattern `*.md` used by `glob("*.md")`. -/
def endsWithMd (s : String) : Bool :=
  match s.data.reverse with
  | 'd' :: 'm' :: '.' :: _ => true
  | _ => false

/-- Whether a user commands/agents entry qualifies for linking (source
line 939): `item.is_file() and item.suffix == ".md"`.  `Path.suffix` equals
`".md"` exactly when the name ends in `".md"` with a nonempty stem (the
lone name `".md"` has an empty suffix), i.e. the name has length at least
4. -/
def userMdQualifies (e : String × FsTree) : Bool :=
  (match e.2 with | .file _ => true | .dir _ => false)
    && endsWithMd e.1 && 4 ≤ e.1.length

/-- Whether a user skills entry qualifies for linking (source lines
922-925): a directory, not hidden, containing a `"SKILL.md"` entry
(`(skill_dir / "SKILL.md").exists()`). -/
def userSkillQualifies (e : String × FsTree) : Bool :=
  match e.2 with
  | .dir es => !startsWithDot e.1 && es.any (fun e2 => e2.1 == "SKILL.md")
  | .file _ => false

/-- Linking one qualifying user commands/agents item (source lines
940-947): unlink an existing symlink of the same name, then `symlink_to` —
which raises `FileExistsError` (an `OSError`, caught: `pass`) when a
non-symlink entry still occupies the name, leaving it untouched and
uncounted. -/
def linkUserMdStep (up : FsPath) (root : List (String × OcNode))
    (e : String × FsTree) : List (String × OcNode) × Nat :=
  match lookupStr e.1 root with
  | some (.symlinkTo _) =>
      (removeName e.1 root ++ [(e.1, .symlinkTo (up ++ [e.1]))], 1)
  | some _ => (root, 0)
  | none => (root ++ [(e.1, .symlinkTo (up ++ [e.1]))], 1)

/-- The `for item in user_source.iterdir()` loop for commands/agents
(source lines 937-947), threading the user-link count. -/
def linkUserMds (up : FsPath) (items : List (String × FsTree))
    (root : List (String × OcNode)) (cnt : Nat) :
    List (String × OcNode) × Nat :=
  match items with
  | [] => (root, cnt)
  | e :: rest =>
      if userMdQualifies e then
        let r := linkUserMdStep up root e
        linkUserMds up rest r.1 (cnt + r.2)
      else linkUserMds up rest root cnt

/-- The uncaught exception the builder can raise: `shutil.rmtree` on a
regular file (source line 930) raises `NotADirectoryError`. -/
inductive BuildError where
  | notADirectory
deriving DecidableEq, Repr

/-- Linking one qualifying user skill (source lines 926-935): unlink an
existing symlink of the same name, `shutil.rmtree` an existing real
directory (a real file makes `rmtree` raise), then `symlink_to`. -/
def linkUserSkillStep (up : FsPath) (root : List (String × OcNode))
    (e : String × FsTree) :
    Except BuildError (List (String × OcNode) × Nat) :=
  match lookupStr e.1 root with
  | some (.symlinkTo _) =>
      .ok (removeName e.1 root ++ [(e.1, .symlinkTo (up ++ [e.1]))], 1)
  | some (.realDir _) =>
      .ok (removeName e.1 root ++ [(e.1, .symlinkTo (up ++ [e.1]))], 1)
  | some (.realFile _) => .error .notADirectory
  | none => .ok (root ++ [(e.1, .symlinkTo (up ++ [e.1]))], 1)

/-- The `for skill_dir in user_source.iterdir()` loop for skills (source
lines 920-935). -/
def linkUserSkills (up : FsPath) (items : List (String × FsTree))
    (root : List (String × OcNode)) (cnt : Nat) :
    Except BuildError (List (String × OcNode) × Nat) :=
  match items with
  | [] => .ok (root, cnt)
  | e :: rest =>
      if userSkillQualifies e then
        match linkUserSkillStep up root e with
        | .ok r => linkUserSkills up rest r.1 (cnt + r.2)
        | .error err => .error err
      else linkUserSkills up rest root cnt

/-- Whether a version's kind subdirectory has qualifying content (source
lines 973-980): for skills, any subdirectory containing a `"SKILL.md"`
entry (`glob("*/SKILL.md")`); for commands/agents, any entry matching
`glob("*.md")` (pathlib glob does not treat dotfiles specially). -/
def hasQualifyingContent (k : CompKind) (entries : List (String × FsTree)) : Bool :=
  match k with
  | .skills => entries.any (fun e => match e.2 with
      | .dir es => es.any (fun e2 => e2.1 == "SKILL.md")
      | .file _ => false)
  | _ => entries.any (fun e => endsWithMd e.1)

/-- Whether one version directory of a plugin gets linked (source lines
967-982): it is a directory whose kind subdirectory exists, is a directory,
and has qualifying content. -/
def versionQualifies (k : CompKind) (v : String × FsTree) : Bool :=
  match v.2 with
  | .dir vents =>
      match lookupStr (cacheSubdirName k) vents with
      | some (.dir sents) => hasQualifyingContent k sents
      | some (.file _) => false
      | none => false
  | .file _ => false

/-- The accumulator of the marketplace phase: the marketplace folder's
entries, the marketplace-link count, and the linked plugin names. -/
structure MarketAcc where
  entries : List (String × OcNode)
  count : Nat
  plugins : List String

/-- Creating the `marketplace/<plugin>` link for one qualifying version
(source lines 982-996): unlink an existing symlink of that name (the
marketplace folder was freshly created, so only links made by this very
loop can occupy it) and symlink to the version's kind subdirectory,
incrementing the count and recording the plugin name once. -/
def marketSetLink (pn : String) (dest : FsPath) (acc : MarketAcc) : MarketAcc :=
  { entries := removeName pn acc.entries ++ [(pn, .symlinkTo dest)],
    count := acc.count + 1,
    plugins := if acc.plugins.contains pn then acc.plugins else acc.plugins ++ [pn] }

/-- The `for version in plugin.iterdir()` loop (source lines 967-996);
non-directory entries are skipped by `versionQualifies`. -/
def linkPluginVersions (k : CompKind) (mn pn : String)
    (versions : List (String × FsTree)) (acc : MarketAcc) : MarketAcc :=
  versions.foldl (fun acc2 v =>
    if versionQualifies k v then
      marketSetLink pn (cacheDirPath ++ [mn, pn, v.1, cacheSubdirName k]) acc2
    else acc2) acc

/-- The `for plugin in marketplace.iterdir()` loop (source lines 962-996):
non-directory entries are skipped. -/
def linkMarketplacePlugins (k : CompKind) (mn : String)
    (plugins : List (String × FsTree)) (acc : MarketAcc) : MarketAcc :=
  plugins.foldl (fun acc2 p =>
    match p.2 with
    | .dir versions => linkPluginVersions k mn p.1 versions acc2
    | .file _ => acc2) acc

/-- The marketplace phase (source lines 949-996): the content of the
freshly recreated `marketplace` subfolder, built from the plugin cache
(`none` models a missing cache directory); hidden and non-directory cache
entries are skipped. -/
def marketLinks (k : CompKind) (cache : Option (List (String × FsTree))) :
    MarketAcc :=
  match cache with
  | none => ⟨[], 0, []⟩
  | some ments =>
      ments.foldl (fun acc m =>
        match m.2 with
        | .dir plugins =>
            if startsWithDot m.1 then acc
            else linkMarketplacePlugins k m.1 plugins acc
        | .file _ => acc) ⟨[], 0, []⟩

/-- The user-linking phase of one component iteration: a missing user
source directory links nothing; skills and commands/agents take their
respective loops. -/
def build_user_step (k : CompKind) (user : Option (List (String × FsTree)))
    (root0 : List (String × OcNode)) :
    Except BuildError (List (String × OcNode) × Nat) :=
  match user with
  | none => .ok (root0, 0)
  | some items =>
      match k with
      | .skills => linkUserSkills (userSourcePath k) items root0 0
      | .commands => .ok (linkUserMds (userSourcePath k) items root0 0)
      | .agents => .ok (linkUserMds (userSourcePath k) items root0 0)

/-- The per-kind result of the builder: the resulting kind directory and
the `{user, marketplace, plugins}` counts reported for the kind. -/
structure KindResult where
  dir : KindDir
  userCount : Nat
  marketCount : Nat
  plugins : List String

/-- One iteration of the component loop of `build_opencode_structure`
(source lines 907-996) for kind `k`: ensure the kind directory exists,
remove its symlink entries other than `"marketplace"`, link the qualifying
user items, then delete and recreate the `"marketplace"` subfolder and fill
it from the plugin cache.  The trailing `sanitize_plugin_cache()` call of
the source (line 999) rewrites the contents of existing cached `*.md` files
in place and never creates, deletes or renames directory entries, so it is
invisible at the listing level modelled here. -/
def build_kind (k : CompKind) (user : Option (List (String × FsTree)))
    (cache : Option (List (String × FsTree))) (d : KindDir) :
    Except BuildError KindResult :=
  match build_user_step k user (cleanRoot d.root) with
  | .error e => .error e
  | .ok r =>
      .ok ⟨⟨r.1, some (marketLinks k cache).entries⟩, r.2,
        (marketLinks k cache).count, (marketLinks k cache).plugins⟩

/-- The merged-namespace state across the three kind directories. -/
structure OpencodeState where
  commandsDir : KindDir
  agentsDir : KindDir
  skillsDir : KindDir

/-- `build_opencode_structure` (source lines 871-1002): the component loop
over commands, agents and skills (an uncaught exception aborts the run). -/
def build_opencode_structure (user : CompKind → Option (List (String × FsTree)))
    (cache : Option (List (String × FsTree))) (st : OpencodeState) :
    Except BuildError (KindResult × KindResult × KindResult) :=
  match build_kind .commands (user .commands) cache st.commandsDir with
  | .error e => .error e
  | .ok rc =>
      match build_kind .agents (user .agents) cache st.agentsDir with
      | .error e => .error e
      | .ok ra =>
          match build_kind .skills (user .skills) cache st.skillsDir with
          | .error e => .error e
          | .ok rs => .ok (rc, ra, rs)

/-- The version name whose link survives for a plugin: the last entry of
the version listing, in enumeration order, that qualifies for linking. -/
def lastQualified (k : CompKind) : List (String × FsTree) → Option String
  | [] => none
  | v :: rest =>
      match lastQualified k rest with
      | some w => some w
      | none => if versionQualifies k v then some v.1 else none

theorem lookupStr_mem {α : Type} {k : String} {v : α} :
    ∀ {l : List (String × α)}, lookupStr k l = some v → (k, v) ∈ l := by
  intro l
  induction l with
  | nil => intro h; exact absurd h (by simp [lookupStr])
  | cons e rest ih =>
      obtain ⟨k1, v1⟩ := e
      intro h
      rw [lookupStr] at h
      by_cases he : k1 = k
      · rw [if_pos he] at h
        injection h with h'
        subst he
        subst h'
        exact List.mem_cons_self _ _
      · rw [if_neg he] at h
        exact List.mem_cons_of_mem _ (ih h)

theorem lookupStr_eq_none {α : Type} {k : String} {l : List (String × α)} :
    lookupStr k l = none ↔ ∀ e ∈ l, e.1 ≠ k := by
  induction l with
  | nil => simp [lookupStr]
  | cons e rest ih =>
      by_cases he : e.1 = k <;> simp [lookupStr, he, ih]

theorem removeName_append (n : String) (a b : List (String × OcNode)) :
    removeName n (a ++ b) = removeName n a ++ removeName n b := by
  simp [removeName]

theorem removeName_eq_self {n : String} {l : List (String × OcNode)}
    (h : lookupStr n l = none) : removeName n l = l := by
  rw [removeName, List.filter_eq_self]
  intro e he
  have hne := lookupStr_eq_none.mp h e he
  simp [hne]

theorem mem_removeName {n : String} {l : List (String × OcNode)}
    {e : String × OcNode} (h : e ∈ removeName n l) : e ∈ l :=
  (List.mem_filter.mp h).1

theorem lookupStr_removeName_self (n : String) (l : List (String × OcNode)) :
    lookupStr n (removeName n l) = none := by
  rw [lookupStr_eq_none]
  intro e he
  have hkeep := (List.mem_filter.mp he).2
  simpa using hkeep

theorem lookupStr_marketSetLink (pn : String) (dest : FsPath) (acc : MarketAcc) :
    lookupStr pn (marketSetLink pn dest acc).entries
      = some (.symlinkTo dest) := by
  show lookupStr pn (removeName pn acc.entries ++ [(pn, .symlinkTo dest)])
      = some (.symlinkTo dest)
  rw [lookupStr_append, lookupStr_removeName_self]
  simp [lookupStr, Option.orElse]

theorem linkPluginVersions_lookup (k : CompKind) (mn pn : String)
    (versions : List (String × FsTree)) (acc : MarketAcc) :
    lookupStr pn (linkPluginVersions k mn pn versions acc).entries =
      match lastQualified k versions with
      | some vn =>
          some (.symlinkTo (cacheDirPath ++ [mn, pn, vn, cacheSubdirName k]))
      | none => lookupStr pn acc.entries := by
  induction versions generalizing acc with
  | nil => rfl
  | cons v rest ih =>
      rw [show linkPluginVersions k mn pn (v :: rest) acc =
          linkPluginVersions k mn pn rest
            (if versionQualifies k v then
              marketSetLink pn (cacheDirPath ++ [mn, pn, v.1, cacheSubdirName k]) acc
            else acc) from rfl]
      rw [ih, lastQualified]
      cases hl : lastQualified k rest with
      | some w => rfl
      | none =>
          by_cases hq : versionQualifies k v
          · rw [if_pos hq, if_pos hq, lookupStr_marketSetLink]
          · rw [if_neg hq, if_neg hq]

theorem build_kind_marketplace (k : CompKind)
    (user cache : Option (List (String × FsTree))) (d : KindDir)
    (res : KindResult) (h : build_kind k user cache d = .ok res) :
    res.dir.marketplace = some (marketLinks k cache).entries := by
  rw [build_kind] at h
  cases hu : build_user_step k user (cleanRoot d.root) with
  | error e =>
      rw [hu] at h
      exact Except.noConfusion h
  | ok r =>
      rw [hu] at h
      injection h with h'
      rw [← h']

/-- C8: when a cached plugin exposes several version directories, the
merged-namespace link created under the plugin's name points at the version
encountered last in enumeration order whose kind subdirectory has
qualifying content — each later qualifying version replaces the link made
for an earlier one — with no semantic-version comparison anywhere. -/
theorem c8_last_version_wins (k : CompKind) (mn pn : String)
    (versions : List (String × FsTree))
    (user : Option (List (String × FsTree))) (d : KindDir) (res : KindResult)
    (hmn : startsWithDot mn = false)
    (h : build_kind k user (some [(mn, .dir [(pn, .dir versions)])]) d = .ok res) :
    lookupStr pn (res.dir.marketplace.getD []) =
      match lastQualified k versions with
      | some vn =>
          some (.symlinkTo (cacheDirPath ++ [mn, pn, vn, cacheSubdirName k]))
      | none => none := by
  rw [build_kind_marketplace k user _ d res h]
  have hm : marketLinks k (some [(mn, FsTree.dir [(pn, FsTree.dir versions)])])
      = linkPluginVersions k mn pn versions ⟨[], 0, []⟩ := by
    show (if startsWithDot mn = true then (⟨[], 0, []⟩ : MarketAcc)
        else linkMarketplacePlugins k mn [(pn, FsTree.dir versions)] ⟨[], 0, []⟩)
      = linkPluginVersions k mn pn versions ⟨[], 0, []⟩
    rw [if_neg (by rw [hmn]; exact Bool.false_ne_true)]
    rfl
  rw [Option.getD_some, hm, linkPluginVersions_lookup]
  cases lastQualified k versions <;> rfl

/-- The concrete two-version plugin cache listing for the C8 witness. -/
def c8versions : List (String × FsTree) :=
  [("v1", .dir [("commands", .dir [("a.md", .file (.parsed .null))])]),
   ("v2", .dir [("commands", .dir [("b.md", .file (.parsed .null))])])]

/-- The builder result on `c8versions` for the C8 witness: the plugin's
link points at version `v2`, the one enumerated last. -/
def c8res : KindResult :=
  ⟨⟨[], some [("p1", .symlinkTo (cacheDirPath ++ ["m1", "p1", "v2", "commands"]))]⟩,
    0, 2, ["p1"]⟩

/-- Witness for C8: with two qualifying versions `v1`, `v2` in enumeration
order, the surviving link is to `v2`. -/
theorem c8_witness :
    lookupStr "p1" (c8res.dir.marketplace.getD []) =
      match lastQualified .commands c8versions with
      | some vn =>
          some (.symlinkTo (cacheDirPath ++ ["m1", "p1", vn, cacheSubdirName .commands]))
      | none => none :=
  c8_last_version_wins .commands "m1" "p1" c8versions none ⟨[], none⟩ c8res rfl rfl

theorem foldl_rec {α β : Type} (P : α → Prop) (f : α → β → α) :
    ∀ (l : List β) (init : α), P init →
      (∀ acc b, b ∈ l → P acc → P (f acc b)) → P (l.foldl f init) := by
  intro l
  induction l with
  | nil => intro init h0 _; exact h0
  | cons x xs ih =>
      intro init h0 hstep
      exact ih (f init x) (hstep init x (List.mem_cons_self x xs) h0)
        (fun acc b hb hacc => hstep acc b (List.mem_cons_of_mem x hb) hacc)

theorem linkPluginVersions_mem (k : CompKind) (mn pn : String)
    (versions : List (String × FsTree)) (acc : MarketAcc) :
    ∀ e ∈ (linkPluginVersions k mn pn versions acc).entries,
      e ∈ acc.entries ∨ ∃ vn,
        e = (pn, .symlinkTo (cacheDirPath ++ [mn, pn, vn, cacheSubdirName k])) := by
  have hstep : ∀ (acc2 : MarketAcc) (v : String × FsTree), v ∈ versions →
      (∀ e ∈ acc2.entries, e ∈ acc.entries ∨ ∃ vn,
        e = (pn, .symlinkTo (cacheDirPath ++ [mn, pn, vn, cacheSubdirName k]))) →
      ∀ e ∈ ((if versionQualifies k v then
          marketSetLink pn (cacheDirPath ++ [mn, pn, v.1, cacheSubdirName k]) acc2
        else acc2)).entries,
        e ∈ acc.entries ∨ ∃ vn,
          e = (pn, .symlinkTo (cacheDirPath ++ [mn, pn, vn, cacheSubdirName k])) := by
    intro acc2 v _ hP e he
    by_cases hq : versionQualifies k v
    · rw [if_pos hq] at he
      rcases List.mem_append.mp he with h1 | h1
      · exact hP e (mem_removeName h1)
      · rw [List.mem_singleton.mp h1]
        exact Or.inr ⟨v.1, rfl⟩
    · rw [if_neg hq] at he
      exact hP e he
  exact foldl_rec
    (fun a => ∀ e ∈ a.entries, e ∈ acc.entries ∨ ∃ vn,
      e = (pn, .symlinkTo (cacheDirPath ++ [mn, pn, vn, cacheSubdirName k])))
    (fun acc2 v => if versionQualifies k v then
        marketSetLink pn (cacheDirPath ++ [mn, pn, v.1, cacheSubdirName k]) acc2
      else acc2)
    versions acc (fun e he => Or.inl he) hstep

theorem linkMarketplacePlugins_mem (k : CompKind) (mn : String)
    (plugins : List (String × FsTree)) (acc : MarketAcc) :
    ∀ e ∈ (linkMarketplacePlugins k mn plugins acc).entries,
      e ∈ acc.entries ∨ ∃ pn vn,
        e = (pn, .symlinkTo (cacheDirPath ++ [mn, pn, vn, cacheSubdirName k])) := by
  have hstep : ∀ (acc2 : MarketAcc) (p : String × FsTree), p ∈ plugins →
      (∀ e ∈ acc2.entries, e ∈ acc.entries ∨ ∃ pn vn,
        e = (pn, .symlinkTo (cacheDirPath ++ [mn, pn, vn, cacheSubdirName k]))) →
      ∀ e ∈ ((match p.2 with
          | FsTree.dir versions => linkPluginVersions k mn p.1 versions acc2
          | FsTree.file _ => acc2)).entries,
        e ∈ acc.entries ∨ ∃ pn vn,
          e = (pn, .symlinkTo (cacheDirPath ++ [mn, pn, vn, cacheSubdirName k])) := by
    intro acc2 p _ hP e he
    cases hp : p.2 with
    | dir versions =>
        rw [hp] at he
        rcases linkPluginVersions_mem k mn p.1 versions acc2 e he with h1 | ⟨vn, h1⟩
        · exact hP e h1
        · exact Or.inr ⟨p.1, vn, h1⟩
    | file c =>
        rw [hp] at he
        exact hP e he
  exact foldl_rec
    (fun a => ∀ e ∈ a.entries, e ∈ acc.entries ∨ ∃ pn vn,
      e = (pn, .symlinkTo (cacheDirPath ++ [mn, pn, vn, cacheSubdirName k])))
    (fun acc2 p => match p.2 with
      | FsTree.dir versions => linkPluginVersions k mn p.1 versions acc2
      | FsTree.file _ => acc2)
    plugins acc (fun e he => Or.inl he) hstep

theorem marketLinks_mem (k : CompKind) (cache : Option (List (String × FsTree))) :
    ∀ e ∈ (marketLinks k cache).entries,
      ∃ mn, mn ∈ (cache.getD []).map Prod.fst ∧ ∃ pn vn,
        e = (pn, .symlinkTo (cacheDirPath ++ [mn, pn, vn, cacheSubdirName k])) := by
  cases cache with
  | none =>
      intro e he
      exact absurd he (List.not_mem_nil e)
  | some ments =>
      have hstep : ∀ (acc : MarketAcc) (m : String × FsTree), m ∈ ments →
          (∀ e ∈ acc.entries, ∃ mn, mn ∈ ments.map Prod.fst ∧ ∃ pn vn,
            e = (pn, .symlinkTo (cacheDirPath ++ [mn, pn, vn, cacheSubdirName k]))) →
          ∀ e ∈ ((match m.2 with
              | FsTree.dir plugins =>
                  if startsWithDot m.1 then acc
                  else linkMarketplacePlugins k m.1 plugins acc
              | FsTree.file _ => acc)).entries,
            ∃ mn, mn ∈ ments.map Prod.fst ∧ ∃ pn vn,
              e = (pn, .symlinkTo (cacheDirPath ++ [mn, pn, vn, cacheSubdirName k])) := by
        intro acc m hm hP e he
        cases hmt : m.2 with
        | dir plugins =>
            rw [hmt] at he
            dsimp only at he
            by_cases hh : startsWithDot m.1
            · rw [if_pos hh] at he
              exact hP e he
            · rw [if_neg hh] at he
              rcases linkMarketplacePlugins_mem k m.1 plugins acc e he with
                h1 | ⟨pn, vn, h1⟩
              · exact hP e h1
              · exact ⟨m.1, List.mem_map_of_mem Prod.fst hm, pn, vn, h1⟩
        | file c =>
            rw [hmt] at he
            exact hP e he
      exact foldl_rec
        (fun a => ∀ e ∈ a.entries, ∃ mn, mn ∈ ments.map Prod.fst ∧ ∃ pn vn,
          e = (pn, .symlinkTo (cacheDirPath ++ [mn, pn, vn, cacheSubdirName k])))
        (fun acc m => match m.2 with
          | FsTree.dir plugins =>
              if startsWithDot m.1 then acc
              else linkMarketplacePlugins k m.1 plugins acc
          | FsTree.file _ => acc)
        ments ⟨[], 0, []⟩ (fun e he => absurd he (List.not_mem_nil e)) hstep

/-- The marketplace component of a symlink created by the marketplace
phase: the path component right after the cache directory prefix. -/
theorem take_cachePath (mn pn vn s : String) :
    (cacheDirPath ++ [mn, pn, vn, s]).take (cacheDirPath.length + 1)
      = cacheDirPath ++ [mn] := rfl

/-- Whether a merged-namespace entry is a link derived from marketplace
`M` of the plugin cache: a symlink whose path starts with
`cache/<M>`. -/
def linksIntoMarketplace (M : String) (nd : OcNode) : Bool :=
  match nd with
  | .symlinkTo p => p.take (cacheDirPath.length + 1) == cacheDirPath ++ [M]
  | _ => false

/-- C4: the builder replaces the `"marketplace"` subfolder of each kind
directory wholesale with the links computed from the current plugin cache
alone — `marketLinks` does not mention the previous directory state — so
for any marketplace `M` absent from the cache at rebuild time (for
instance one removed before the rebuild), no link derived from `M` remains
in the merged namespace afterwards. -/
theorem c4_marketplace_rebuilt_no_stale (k : CompKind)
    (user cache : Option (List (String × FsTree))) (d : KindDir)
    (res : KindResult) (M : String)
    (h : build_kind k user cache d = .ok res)
    (hM : M ∉ (cache.getD []).map Prod.fst) :
    res.dir.marketplace = some (marketLinks k cache).entries ∧
    ∀ e ∈ res.dir.marketplace.getD [], linksIntoMarketplace M e.2 = false := by
  have hmp := build_kind_marketplace k user cache d res h
  refine ⟨hmp, ?_⟩
  rw [hmp]
  intro e he
  rw [Option.getD_some] at he
  obtain ⟨mn, hmn, pn, vn, rfl⟩ := marketLinks_mem k cache e he
  show ((cacheDirPath ++ [mn, pn, vn, cacheSubdirName k]).take
      (cacheDirPath.length + 1) == cacheDirPath ++ [M]) = false
  rw [take_cachePath, beq_eq_false_iff_ne]
  intro hcontra
  apply hM
  have hmnM : mn = M := by
    have h2 := List.append_cancel_left hcontra
    injection h2
  rw [← hmnM]
  exact hmn

/-- The concrete one-marketplace cache for the C4 witness. -/
def c4cache : List (String × FsTree) :=
  [("m1", .dir [("p1", .dir [("v1", .dir
    [("commands", .dir [("c.md", .file (.parsed .null))])])])])]

/-- The builder result on `c4cache` for the C4 witness. -/
def c4res : KindResult :=
  ⟨⟨[], some [("p1", .symlinkTo (cacheDirPath ++ ["m1", "p1", "v1", "commands"]))]⟩,
    0, 1, ["p1"]⟩

/-- Witness for C4: marketplace `m2` is not in the cache, and no entry of
the rebuilt marketplace folder links into it. -/
theorem c4_witness :
    c4res.dir.marketplace = some (marketLinks .commands (some c4cache)).entries ∧
    ∀ e ∈ c4res.dir.marketplace.getD [],
      linksIntoMarketplace "m2" e.2 = false :=
  c4_marketplace_rebuilt_no_stale .commands none (some c4cache) ⟨[], none⟩
    c4res "m2" rfl (by decide)

/-! ### Idempotence of the builder (claim C5) -/

/-- Every entry of a listing is a symlink (true of everything the
user-linking loops ever add). -/
def allSymlinks (l : List (String × OcNode)) : Prop :=
  ∀ e ∈ l, e.2.isSymlink = true

theorem allSymlinks_nil : allSymlinks [] :=
  fun e he => absurd he (List.not_mem_nil e)

theorem allSymlinks_removeName {S : List (String × OcNode)} (h : allSymlinks S)
    (n : String) : allSymlinks (removeName n S) :=
  fun e he => h e (mem_removeName he)

theorem allSymlinks_append {a b : List (String × OcNode)} (ha : allSymlinks a)
    (hb : allSymlinks b) : allSymlinks (a ++ b) := by
  intro e he
  rcases List.mem_append.mp he with h1 | h1
  · exact ha e h1
  · exact hb e h1

theorem allSymlinks_single (n : String) (p : FsPath) :
    allSymlinks [(n, .symlinkTo p)] := by
  intro e he
  rw [List.mem_singleton.mp he]
  rfl

theorem cleanRoot_append (a b : List (String × OcNode)) :
    cleanRoot (a ++ b) = cleanRoot a ++ cleanRoot b := by
  simp [cleanRoot]

theorem cleanRoot_of_nosym {l : List (String × OcNode)}
    (h : ∀ e ∈ l, e.2.isSymlink = false) : cleanRoot l = l := by
  rw [cleanRoot, List.filter_eq_self]
  intro e he
  simp [h e he]

theorem cleanRoot_of_symlinks {l : List (String × OcNode)} (h : allSymlinks l) :
    cleanRoot l = [] := by
  rw [cleanRoot, List.filter_eq_nil_iff]
  intro e he
  simp [h e he]

theorem cleanRoot_nosym (l : List (String × OcNode)) :
    ∀ e ∈ cleanRoot l, e.2.isSymlink = false := by
  intro e he
  have hkeep := (List.mem_filter.mp he).2
  simpa using hkeep

theorem lookupStr_append_some {α : Type} {k : String} {R : List (String × α)}
    {x : α} (h : lookupStr k R = some x) (S : List (String × α)) :
    lookupStr k (R ++ S) = some x := by
  rw [lookupStr_append, h]
  rfl

theorem lookupStr_append_none {α : Type} {k : String} {R : List (String × α)}
    (h : lookupStr k R = none) (S : List (String × α)) :
    lookupStr k (R ++ S) = lookupStr k S := by
  rw [lookupStr_append, h]
  rfl

theorem lookupStr_none_of_subset {n : String} {R R2 : List (String × OcNode)}
    (hsub : ∀ x ∈ R2, x ∈ R) (h : lookupStr n R = none) :
    lookupStr n R2 = none :=
  lookupStr_eq_none.mpr (fun e he => lookupStr_eq_none.mp h e (hsub e he))

theorem symlink_shape {y : OcNode} (h : y.isSymlink = true) :
    ∃ p, y = .symlinkTo p := by
  cases y with
  | symlinkTo p => exact ⟨p, rfl⟩
  | realFile c => exact absurd h (by simp [OcNode.isSymlink])
  | realDir t => exact absurd h (by simp [OcNode.isSymlink])

theorem linkUserMds_cons (up : FsPath) (e : String × FsTree)
    (rest : List (String × FsTree)) (root : List (String × OcNode)) (cnt : Nat) :
    linkUserMds up (e :: rest) root cnt =
      if userMdQualifies e then
        linkUserMds up rest (linkUserMdStep up root e).1
          (cnt + (linkUserMdStep up root e).2)
      else linkUserMds up rest root cnt := rfl

/-- Shape of one commands/agents user-linking pass: starting from a
symlink-free prefix `R` and an all-symlink suffix `S`, the pass only
rearranges the symlink suffix — the non-symlink entries survive exactly. -/
theorem linkUserMds_form (up : FsPath) (items : List (String × FsTree)) :
    ∀ (R S : List (String × OcNode)) (cnt : Nat),
      (∀ e ∈ R, e.2.isSymlink = false) → allSymlinks S →
      ∃ S2 c2, linkUserMds up items (R ++ S) cnt = (R ++ S2, c2) ∧
        allSymlinks S2 := by
  induction items with
  | nil =>
      intro R S cnt _ hS
      exact ⟨S, cnt, rfl, hS⟩
  | cons e rest ih =>
      intro R S cnt hR hS
      rw [linkUserMds_cons]
      by_cases hq : userMdQualifies e
      · rw [if_pos hq]
        cases hRl : lookupStr e.1 R with
        | some x =>
            have hxns : x.isSymlink = false := hR _ (lookupStr_mem hRl)
            have hcomb := lookupStr_append_some hRl S
            cases x with
            | symlinkTo p => simp [OcNode.isSymlink] at hxns
            | realFile c =>
                have hstep : linkUserMdStep up (R ++ S) e = (R ++ S, 0) := by
                  rw [linkUserMdStep, hcomb]
                rw [hstep]
                exact ih R S (cnt + 0) hR hS
            | realDir t =>
                have hstep : linkUserMdStep up (R ++ S) e = (R ++ S, 0) := by
                  rw [linkUserMdStep, hcomb]
                rw [hstep]
                exact ih R S (cnt + 0) hR hS
        | none =>
            cases hSl : lookupStr e.1 S with
            | some y =>
                have hysym : y.isSymlink = true := hS _ (lookupStr_mem hSl)
                obtain ⟨p, rfl⟩ := symlink_shape hysym
                have hcomb : lookupStr e.1 (R ++ S) = some (.symlinkTo p) := by
                  rw [lookupStr_append_none hRl, hSl]
                have hstep : linkUserMdStep up (R ++ S) e =
                    (removeName e.1 (R ++ S) ++
                      [(e.1, .symlinkTo (up ++ [e.1]))], 1) := by
                  rw [linkUserMdStep, hcomb]
                rw [hstep]
                dsimp only
                rw [removeName_append, removeName_eq_self hRl, List.append_assoc]
                exact ih R (removeName e.1 S ++ [(e.1, .symlinkTo (up ++ [e.1]))])
                  (cnt + 1) hR
                  (allSymlinks_append (allSymlinks_removeName hS e.1)
                    (allSymlinks_single e.1 (up ++ [e.1])))
            | none =>
                have hcomb : lookupStr e.1 (R ++ S) = none := by
                  rw [lookupStr_append_none hRl, hSl]
                have hstep : linkUserMdStep up (R ++ S) e =
                    ((R ++ S) ++ [(e.1, .symlinkTo (up ++ [e.1]))], 1) := by
                  rw [linkUserMdStep, hcomb]
                rw [hstep]
                dsimp only
                rw [List.append_assoc]
                exact ih R (S ++ [(e.1, .symlinkTo (up ++ [e.1]))]) (cnt + 1) hR
                  (allSymlinks_append hS (allSymlinks_single e.1 (up ++ [e.1])))
      · rw [if_neg hq]
        exact ih R S cnt hR hS

theorem linkUserSkills_cons (up : FsPath) (e : String × FsTree)
    (rest : List (String × FsTree)) (root : List (String × OcNode)) (cnt : Nat) :
    linkUserSkills up (e :: rest) root cnt =
      if userSkillQualifies e then
        match linkUserSkillStep up root e with
        | .ok r => linkUserSkills up rest r.1 (cnt + r.2)
        | .error err => .error err
      else linkUserSkills up rest root cnt := rfl

/-- Shape of one skills user-linking pass that completed without raising:
the result splits into the surviving non-symlink entries `R2` (a subset of
the original ones — a colliding real directory is rmtree'd away) and an
all-symlink suffix, and rerunning the very same pass on `R2 ++ S` again
yields the identical result. -/
theorem linkUserSkills_form (up : FsPath) (items : List (String × FsTree)) :
    ∀ (R S : List (String × OcNode)) (cnt : Nat)
      (out : List (String × OcNode) × Nat),
      (∀ e ∈ R, e.2.isSymlink = false) → allSymlinks S →
      linkUserSkills up items (R ++ S) cnt = .ok out →
      ∃ R2 S2, out.1 = R2 ++ S2 ∧ (∀ x ∈ R2, x ∈ R) ∧ allSymlinks S2 ∧
        linkUserSkills up items (R2 ++ S) cnt = .ok out := by
  induction items with
  | nil =>
      intro R S cnt out _ hS hout
      injection hout with h'
      have h1 : out.1 = R ++ S := by rw [← h']
      exact ⟨R, S, h1, fun x hx => hx, hS, congrArg Except.ok h'⟩
  | cons e rest ih =>
      intro R S cnt out hR hS hout
      rw [linkUserSkills_cons] at hout
      by_cases hq : userSkillQualifies e
      · rw [if_pos hq] at hout
        cases hRl : lookupStr e.1 R with
        | some x =>
            have hxns : x.isSymlink = false := hR _ (lookupStr_mem hRl)
            have hcomb := lookupStr_append_some hRl S
            cases x with
            | symlinkTo p => simp [OcNode.isSymlink] at hxns
            | realFile c =>
                have hstep : linkUserSkillStep up (R ++ S) e
                    = .error .notADirectory := by
                  rw [linkUserSkillStep, hcomb]
                rw [hstep] at hout
                exact Except.noConfusion hout
            | realDir t =>
                have hstep : linkUserSkillStep up (R ++ S) e =
                    .ok (removeName e.1 (R ++ S) ++
                      [(e.1, .symlinkTo (up ++ [e.1]))], 1) := by
                  rw [linkUserSkillStep, hcomb]
                rw [hstep] at hout
                dsimp only at hout
                rw [removeName_append, List.append_assoc] at hout
                obtain ⟨R2, S2, h1, hsub, hsym, hrerun⟩ :=
                  ih (removeName e.1 R)
                    (removeName e.1 S ++ [(e.1, .symlinkTo (up ++ [e.1]))])
                    (cnt + 1) out
                    (fun x hx => hR x (mem_removeName hx))
                    (allSymlinks_append (allSymlinks_removeName hS e.1)
                      (allSymlinks_single e.1 (up ++ [e.1]))) hout
                refine ⟨R2, S2, h1, fun x hx => mem_removeName (hsub x hx),
                  hsym, ?_⟩
                rw [linkUserSkills_cons, if_pos hq]
                have hR2 : lookupStr e.1 R2 = none :=
                  lookupStr_none_of_subset hsub (lookupStr_removeName_self e.1 R)
                cases hSl : lookupStr e.1 S with
                | some y =>
                    obtain ⟨p, rfl⟩ := symlink_shape (hS _ (lookupStr_mem hSl))
                    have hcomb2 : lookupStr e.1 (R2 ++ S)
                        = some (.symlinkTo p) := by
                      rw [lookupStr_append_none hR2, hSl]
                    have hstep2 : linkUserSkillStep up (R2 ++ S) e =
                        .ok (removeName e.1 (R2 ++ S) ++
                          [(e.1, .symlinkTo (up ++ [e.1]))], 1) := by
                      rw [linkUserSkillStep, hcomb2]
                    rw [hstep2]
                    dsimp only
                    rw [removeName_append, removeName_eq_self hR2,
                      List.append_assoc]
                    exact hrerun
                | none =>
                    have hcomb2 : lookupStr e.1 (R2 ++ S) = none := by
                      rw [lookupStr_append_none hR2, hSl]
                    have hstep2 : linkUserSkillStep up (R2 ++ S) e =
                        .ok ((R2 ++ S) ++
                          [(e.1, .symlinkTo (up ++ [e.1]))], 1) := by
                      rw [linkUserSkillStep, hcomb2]
                    rw [hstep2]
                    dsimp only
                    rw [List.append_assoc]
                    rw [removeName_eq_self hSl] at hrerun
                    exact hrerun
        | none =>
            cases hSl : lookupStr e.1 S with
            | some y =>
                obtain ⟨p, rfl⟩ := symlink_shape (hS _ (lookupStr_mem hSl))
                have hcomb : lookupStr e.1 (R ++ S) = some (.symlinkTo p) := by
                  rw [lookupStr_append_none hRl, hSl]
                have hstep : linkUserSkillStep up (R ++ S) e =
                    .ok (removeName e.1 (R ++ S) ++
                      [(e.1, .symlinkTo (up ++ [e.1]))], 1) := by
                  rw [linkUserSkillStep, hcomb]
                rw [hstep] at hout
                dsimp only at hout
                rw [removeName_append, removeName_eq_self hRl,
                  List.append_assoc] at hout
                obtain ⟨R2, S2, h1, hsub, hsym, hrerun⟩ :=
                  ih R (removeName e.1 S ++ [(e.1, .symlinkTo (up ++ [e.1]))])
                    (cnt + 1) out hR
                    (allSymlinks_append (allSymlinks_removeName hS e.1)
                      (allSymlinks_single e.1 (up ++ [e.1]))) hout
                refine ⟨R2, S2, h1, hsub, hsym, ?_⟩
                rw [linkUserSkills_cons, if_pos hq]
                have hR2 : lookupStr e.1 R2 = none :=
                  lookupStr_none_of_subset hsub hRl
                have hcomb2 : lookupStr e.1 (R2 ++ S)
                    = some (.symlinkTo p) := by
                  rw [lookupStr_append_none hR2, hSl]
                have hstep2 : linkUserSkillStep up (R2 ++ S) e =
                    .ok (removeName e.1 (R2 ++ S) ++
                      [(e.1, .symlinkTo (up ++ [e.1]))], 1) := by
                  rw [linkUserSkillStep, hcomb2]
                rw [hstep2]
                dsimp only
                rw [removeName_append, removeName_eq_self hR2, List.append_assoc]
                exact hrerun
            | none =>
                have hcomb : lookupStr e.1 (R ++ S) = none := by
                  rw [lookupStr_append_none hRl, hSl]
                have hstep : linkUserSkillStep up (R ++ S) e =
                    .ok ((R ++ S) ++ [(e.1, .symlinkTo (up ++ [e.1]))], 1) := by
                  rw [linkUserSkillStep, hcomb]
                rw [hstep] at hout
                dsimp only at hout
                rw [List.append_assoc] at hout
                obtain ⟨R2, S2, h1, hsub, hsym, hrerun⟩ :=
                  ih R (S ++ [(e.1, .symlinkTo (up ++ [e.1]))]) (cnt + 1) out hR
                    (allSymlinks_append hS (allSymlinks_single e.1 (up ++ [e.1])))
                    hout
                refine ⟨R2, S2, h1, hsub, hsym, ?_⟩
                rw [linkUserSkills_cons, if_pos hq]
                have hR2 : lookupStr e.1 R2 = none :=
                  lookupStr_none_of_subset hsub hRl
                have hcomb2 : lookupStr e.1 (R2 ++ S) = none := by
                  rw [lookupStr_append_none hR2, hSl]
                have hstep2 : linkUserSkillStep up (R2 ++ S) e =
                    .ok ((R2 ++ S) ++ [(e.1, .symlinkTo (up ++ [e.1]))], 1) := by
                  rw [linkUserSkillStep, hcomb2]
                rw [hstep2]
                dsimp only
                rw [List.append_assoc]
                exact hrerun
      · rw [if_neg hq] at hout
        obtain ⟨R2, S2, h1, hsub, hsym, hrerun⟩ := ih R S cnt out hR hS hout
        refine ⟨R2, S2, h1, hsub, hsym, ?_⟩
        rw [linkUserSkills_cons, if_neg hq]
        exact hrerun

/-- Rerunning the user-linking phase on the cleaned result of a completed
run reproduces that run's result exactly. -/
theorem build_user_step_idem (k : CompKind)
    (user : Option (List (String × FsTree))) (root0 : List (String × OcNode))
    (hns : ∀ e ∈ root0, e.2.isSymlink = false)
    (r : List (String × OcNode) × Nat)
    (h : build_user_step k user root0 = .ok r) :
    build_user_step k user (cleanRoot r.1) = .ok r := by
  cases user with
  | none =>
      injection h with h'
      have h1 : r.1 = root0 := by rw [← h']
      show Except.ok (cleanRoot r.1, 0) = Except.ok r
      rw [h1, cleanRoot_of_nosym hns]
      exact congrArg Except.ok h'
  | some items =>
      cases k with
      | commands =>
          injection h with h'
          obtain ⟨S2, c2, heq, hsym⟩ :=
            linkUserMds_form (userSourcePath .commands) items root0 [] 0 hns
              allSymlinks_nil
          rw [List.append_nil] at heq
          have h1 : r.1 = root0 ++ S2 := by rw [← h', heq]
          have hcl : cleanRoot r.1 = root0 := by
            rw [h1, cleanRoot_append, cleanRoot_of_nosym hns,
              cleanRoot_of_symlinks hsym, List.append_nil]
          show Except.ok (linkUserMds (userSourcePath .commands) items
            (cleanRoot r.1) 0) = Except.ok r
          rw [hcl]
          exact congrArg Except.ok h'
      | agents =>
          injection h with h'
          obtain ⟨S2, c2, heq, hsym⟩ :=
            linkUserMds_form (userSourcePath .agents) items root0 [] 0 hns
              allSymlinks_nil
          rw [List.append_nil] at heq
          have h1 : r.1 = root0 ++ S2 := by rw [← h', heq]
          have hcl : cleanRoot r.1 = root0 := by
            rw [h1, cleanRoot_append, cleanRoot_of_nosym hns,
              cleanRoot_of_symlinks hsym, List.append_nil]
          show Except.ok (linkUserMds (userSourcePath .agents) items
            (cleanRoot r.1) 0) = Except.ok r
          rw [hcl]
          exact congrArg Except.ok h'
      | skills =>
          obtain ⟨R2, S2, h1, hsub, hsym, hrerun⟩ :=
            linkUserSkills_form (userSourcePath .skills) items root0 [] 0 r hns
              allSymlinks_nil (by rw [List.append_nil]; exact h)
          have hR2ns : ∀ e ∈ R2, e.2.isSymlink = false :=
            fun e he => hns e (hsub e he)
          have hcl : cleanRoot r.1 = R2 := by
            rw [h1, cleanRoot_append, cleanRoot_of_nosym hR2ns,
              cleanRoot_of_symlinks hsym, List.append_nil]
          show linkUserSkills (userSourcePath .skills) items (cleanRoot r.1) 0
            = Except.ok r
          rw [hcl]
          rw [List.append_nil] at hrerun
          exact hrerun

/-- C5: rebuilding a kind directory a second time with unchanged inputs
(identical user content listing and identical plugin cache) reproduces the
first rebuild's result exactly — in particular the entries of the kind
directory and of its marketplace subfolder, hence their name listings, are
the same after the second run as after the first, and the reported counts
agree too. -/
theorem c5_build_kind_idempotent (k : CompKind)
    (user cache : Option (List (String × FsTree))) (d : KindDir)
    (res : KindResult) (h : build_kind k user cache d = .ok res) :
    build_kind k user cache res.dir = .ok res := by
  cases hu : build_user_step k user (cleanRoot d.root) with
  | error e =>
      rw [build_kind, hu] at h
      exact Except.noConfusion h
  | ok r =>
      rw [build_kind, hu] at h
      injection h with h'
      have hrun2 := build_user_step_idem k user (cleanRoot d.root)
        (cleanRoot_nosym d.root) r hu
      have hroot : res.dir.root = r.1 := by rw [← h']
      rw [build_kind, hroot, hrun2]
      exact congrArg Except.ok h'

/-- The user skills listing for the C5 witness: one qualifying skill
directory. -/
def c5user : List (String × FsTree) :=
  [("s1", .dir [("SKILL.md", .file (.parsed .null))])]

/-- The builder result for the C5 witness: the colliding real directory in
the kind directory was replaced by the user-skill symlink. -/
def c5res : KindResult :=
  ⟨⟨[("s1", .symlinkTo (userSourcePath .skills ++ ["s1"]))], some []⟩, 1, 0, []⟩

/-- Witness for C5: a second skills rebuild from the first rebuild's
resulting directory reproduces the result exactly. -/
theorem c5_witness :
    build_kind .skills (some c5user) none c5res.dir = .ok c5res :=
  c5_build_kind_idempotent .skills (some c5user) none
    ⟨[("s1", .realDir [])], none⟩ c5res rfl

/-! ## Registry loading (`load_known_marketplaces`) -/

/-- The `known_marketplaces.json` file as seen by the loader: absent,
present but unreadable (an `IOError` when opening/reading it), or present
with some content. -/
inductive RegistryFileState where
  | absent
  | unreadable
  | present (c : Content)

/-- `load_known_marketplaces` (source lines 676-688): `{}` when the file
does not exist; otherwise `json.load` with `(json.JSONDecodeError,
IOError)` caught and turned into `{}`; a successful parse is returned
as-is, whatever JSON value it is. -/
def load_known_marketplaces : RegistryFileState → JVal
  | .absent => .obj []
  | .unreadable => .obj []
  | .present c =>
      match parseContent c with
      | none => .obj []
      | some v => v

/-- Whether a JSON value is an object (a Python dict). -/
def JVal.isObj : JVal → Bool
  | .obj _ => true
  | .null => false
  | .bool _ => false
  | .num _ => false
  | .str _ => false
  | .arr _ => false

/-- C10 counterexample: a registry file containing the well-formed JSON
array `[1]` makes `load_known_marketplaces` return that array unchanged —
the caller does NOT see a dictionary, contradicting "every caller of the
registry sees a well-formed dictionary". -/
theorem c10_claim_false :
    load_known_marketplaces (.present (.parsed (.arr [.num 1])))
      = .arr [.num 1] ∧
    (load_known_marketplaces (.present (.parsed (.arr [.num 1])))).isObj
      = false :=
  ⟨rfl, rfl⟩

/-- C10 (amended): loading the known-marketplaces registry never raises
for an absent, unreadable or malformed-JSON file — each of those yields the
empty mapping `{}` — but a file whose content parses to any JSON value is
returned unchanged, so callers are guaranteed a dictionary only when the
file's top-level JSON value is an object. -/
theorem c10_load_total_defaults_empty :
    load_known_marketplaces .absent = .obj [] ∧
    load_known_marketplaces .unreadable = .obj [] ∧
    (∀ i, load_known_marketplaces (.present (.unparsable i)) = .obj []) ∧
    (∀ v, load_known_marketplaces (.present (.parsed v)) = v) :=
  ⟨rfl, rfl, fun _ => rfl, fun _ => rfl⟩

end AgentPlugins
